import Mathlib

/-!
Shallow embedding of `sso_report.py`: an AWS SSO reporting script that loads
users and groups from an identity store, then walks accounts, permission sets
and account assignments, writing one CSV row per (account, permission set,
resolved user).

API responses are modelled by an environment record of pure record streams
(the paginated generators produce plain lists).  Python `KeyError` /
`IndexError` aborts are modelled with `Except`.  The `functools.lru_cache` on
`describe_permission_set` is modelled as an explicit LRU cache with the
decorator's default capacity of 128, threaded through the run together with a
trace of the actual describe API calls.
-/

set_option maxRecDepth 4000

namespace SsoReport

/-- A user record from the identity-store `list_users` API:
`UserId`, `UserName`, `DisplayName`. -/
structure User where
  userId : String
  userName : String
  displayName : String
deriving DecidableEq, Repr

/-- A group record from `list_groups`: `GroupId`, `DisplayName`, and the
optional `Description` (`group.get("Description", "")` in the source). -/
structure Group where
  groupId : String
  displayName : String
  description : Option String
deriving DecidableEq, Repr

/-- An identity-center instance record from `list_instances`. -/
structure SsoInstance where
  identityStoreId : String
  instanceArn : String
deriving DecidableEq, Repr

/-- An account-assignment record: `PrincipalType` and `PrincipalId`. -/
structure Assignment where
  principalType : String
  principalId : String
deriving DecidableEq, Repr

/-- The `PermissionSet` part of a `describe_permission_set` response:
`Name` and optional `Description`. -/
structure PermInfo where
  name : String
  desc : Option String
deriving DecidableEq, Repr

/-- Python exceptions the script can raise: `KeyError` from a dict lookup,
`IndexError` from `instances[0]` on an empty list. -/
inductive PyErr where
  | keyError (key : String)
  | indexError
deriving DecidableEq, Repr

/-- Python dict lookup.  Dicts are modelled as association lists with the most
recent insertion first, so the first match is the current binding. -/
def dget {α : Type} (m : List (String × α)) (k : String) : Option α :=
  (m.find? (fun p => p.1 == k)).map (·.2)

/-- The world of API responses a run observes: each field corresponds to one
paginated listing (or describe) capability of section 6 of the design. -/
structure Env where
  users : List User
  groups : List Group
  memberships : String → List String
  accounts : List (String × String)
  permSets : String → List String
  permDescribe : String → PermInfo
  assignments : String → String → List Assignment

/-- `get_identity_center`: takes the first entry of the `list_instances`
response with no validation and returns `(InstanceArn, IdentityStoreId)`;
`instances[0]` raises `IndexError` when the listing is empty. -/
def get_identity_center (instances : List SsoInstance) :
    Except PyErr (String × String) :=
  match instances with
  | [] => .error .indexError
  | inst :: _ => .ok (inst.instanceArn, inst.identityStoreId)

/-- The `user_map` built by the first loop of `main`:
`user_map[user_id] = (username, user_displayname)`. -/
def buildUserMap (users : List User) : List (String × (String × String)) :=
  users.foldl (fun m user => (user.userId, (user.userName, user.displayName)) :: m) []

/-- The list comprehension
`[user_map[user_id] for user_id in generate_group_memberships(group_id)]`:
each member id is looked up in `user_map`, raising `KeyError` on a miss. -/
def resolveMembers (userMap : List (String × (String × String))) :
    List String → Except PyErr (List (String × String))
  | [] => .ok []
  | uid :: rest =>
    match dget userMap uid with
    | none => .error (.keyError uid)
    | some p =>
      match resolveMembers userMap rest with
      | .error e => .error e
      | .ok l => .ok (p :: l)

/-- Python's strict `<` on strings, on the underlying character lists:
lexicographic by code point. -/
def charListLt : List Char → List Char → Bool
  | [], [] => false
  | [], _ :: _ => true
  | _ :: _, [] => false
  | a :: as, b :: bs =>
    if a.toNat < b.toNat then true
    else if b.toNat < a.toNat then false
    else charListLt as bs

/-- Python's `<` on strings. -/
def strLt (a b : String) : Bool := charListLt a.data b.data

/-- Python's `<=` on strings. -/
def strLe (a b : String) : Bool := strLt a b || a == b

/-- Python's ascending comparison on `(username, displayname)` string pairs,
as used by `members.sort()`: compare the first components, and on a tie the
second. -/
def pairLe (a b : String × String) : Bool :=
  if strLt a.1 b.1 then true
  else if strLt b.1 a.1 then false
  else strLe a.2 b.2

/-- `pairLe` as a relation, the sort order of `members.sort()`. -/
def PairLeR : (String × String) → (String × String) → Prop :=
  fun a b => pairLe a b = true

instance : DecidableRel PairLeR := fun a b => instDecidableEqBool (pairLe a b) true

/-- One `group_map` value: `(group_name, group_desc, members)`. -/
structure GroupEntry where
  name : String
  desc : String
  members : List (String × String)
deriving DecidableEq, Repr

/-- The `group_map` loop of `main`: resolve each group's membership against
`user_map`, sort the member pairs in place (`members.sort()` is Python's
stable ascending sort, modelled by the stable `List.insertionSort`), and
store `(group_name, group_desc, members)` under the group id.  The
accumulator is the map built so far (most recent insertion first). -/
def buildGroupMap (userMap : List (String × (String × String)))
    (mships : String → List String) :
    List Group → List (String × GroupEntry) → Except PyErr (List (String × GroupEntry))
  | [], acc => .ok acc
  | g :: rest, acc =>
    match resolveMembers userMap (mships g.groupId) with
    | .error e => .error e
    | .ok l =>
      buildGroupMap userMap mships rest
        ((g.groupId, ⟨g.displayName, g.description.getD "", l.insertionSort PairLeR⟩) :: acc)

/-- The CSV header / `DictWriter` field names, exactly as in the source. -/
def field_names : List String :=
  ["ACCOUNT_ID", "ACCOUNT_NAME", "PERM_ARN", "PERMISSION", "PERM_DESC",
   "PRINCIPAL_TYPE", "GROUP", "GROUP_DESC", "USER_ID", "USER_NAME"]

/-- The row dict built in the `principal_type == "USER"` branch (lines 58-67):
no `GROUP` / `GROUP_DESC` keys. -/
def userRow (accountId accountName permArn permName permDesc principalType
    username userDisplayname : String) : List (String × String) :=
  [("ACCOUNT_ID", accountId), ("ACCOUNT_NAME", accountName),
   ("PERM_ARN", permArn), ("PERMISSION", permName), ("PERM_DESC", permDesc),
   ("PRINCIPAL_TYPE", principalType),
   ("USER_ID", username), ("USER_NAME", userDisplayname)]

/-- The row dict built per member in the `principal_type == "GROUP"` branch
(lines 72-83). -/
def groupRow (accountId accountName permArn permName permDesc principalType
    groupName groupDesc username userDisplayname : String) : List (String × String) :=
  [("ACCOUNT_ID", accountId), ("ACCOUNT_NAME", accountName),
   ("PERM_ARN", permArn), ("PERMISSION", permName), ("PERM_DESC", permDesc),
   ("PRINCIPAL_TYPE", principalType),
   ("GROUP", groupName), ("GROUP_DESC", groupDesc),
   ("USER_ID", username), ("USER_NAME", userDisplayname)]

/-- The value `csv.DictWriter` writes for field `k` of a row dict: the dict's
value if the key is present, else the `restval` default `""`. -/
def cell (row : List (String × String)) (k : String) : String :=
  (dget row k).getD ""

/-- The CSV cells of one data row, in `field_names` order, as `DictWriter`
renders the row dict. -/
def csvCells (row : List (String × String)) : List String :=
  field_names.map (cell row)

/-- The body of the innermost loop of `main` (lines 54-84): the row dicts
written for a single assignment, or the `KeyError` that aborts there.
The source has two independent `if` statements, so both branches are
modelled in sequence. -/
def rowsForAssignment (userMap : List (String × (String × String)))
    (groupMap : List (String × GroupEntry))
    (accountId accountName permArn permName permDesc : String)
    (a : Assignment) : Except PyErr (List (List (String × String))) :=
  match (if a.principalType == "USER" then
      match dget userMap a.principalId with
      | none => Except.error (PyErr.keyError a.principalId)
      | some p => Except.ok [userRow accountId accountName permArn permName
          permDesc a.principalType p.1 p.2]
    else Except.ok []) with
  | .error e => .error e
  | .ok userRows =>
    match (if a.principalType == "GROUP" then
        match dget groupMap a.principalId with
        | none => Except.error (PyErr.keyError a.principalId)
        | some ge => Except.ok (ge.members.map (fun p =>
            groupRow accountId accountName permArn permName permDesc
              a.principalType ge.name ge.desc p.1 p.2))
      else Except.ok []) with
    | .error e => .error e
    | .ok groupRows => .ok (userRows ++ groupRows)

/-- The default capacity of a bare `@functools.lru_cache` decorator. -/
def lruMaxsize : Nat := 128

/-- `describe_permission_set` through its `@functools.lru_cache`: on a hit the
cached value is returned and the entry moves to the most-recently-used
position; on a miss the API is called (recorded in the returned trace), the
result is inserted, and the least-recently-used entry is discarded if the
cache exceeds its capacity.  The cache list is ordered most recent first. -/
def describe_permission_set (env : Env) (cache : List (String × PermInfo))
    (arn : String) : PermInfo × List (String × PermInfo) × List String :=
  match dget cache arn with
  | some v => (v, (arn, v) :: cache.filter (fun p => !(p.1 == arn)), [])
  | none =>
    (env.permDescribe arn,
     ((arn, env.permDescribe arn) :: cache).take lruMaxsize,
     [arn])

/-- The assignment loop for one (account, permission set) pair: rows written
in order, stopping at the first error. -/
def runAssignmentsList (userMap : List (String × (String × String)))
    (groupMap : List (String × GroupEntry))
    (accountId accountName permArn permName permDesc : String) :
    List Assignment → List (List (String × String)) × Option PyErr
  | [] => ([], none)
  | a :: rest =>
    match rowsForAssignment userMap groupMap accountId accountName permArn
        permName permDesc a with
    | .error e => ([], some e)
    | .ok rows =>
      match runAssignmentsList userMap groupMap accountId accountName permArn
          permName permDesc rest with
      | (more, err) => (rows ++ more, err)

/-- The permission-set loop for one account: describe each permission set
(through the cache), then walk its assignments.  Returns the rows written,
the describe API-call trace, the final cache, and the aborting error if any. -/
def runPermSets (env : Env) (userMap : List (String × (String × String)))
    (groupMap : List (String × GroupEntry)) (accountId accountName : String) :
    List String → List (String × PermInfo) →
    List (List (String × String)) × List String × List (String × PermInfo) × Option PyErr
  | [], cache => ([], [], cache, none)
  | parn :: rest, cache =>
    let d := describe_permission_set env cache parn
    match runAssignmentsList userMap groupMap accountId accountName parn
        d.1.name (d.1.desc.getD "") (env.assignments accountId parn) with
    | (rows, some e) => (rows, d.2.2, d.2.1, some e)
    | (rows, none) =>
      match runPermSets env userMap groupMap accountId accountName rest d.2.1 with
      | (rows2, calls2, cache2, err2) =>
        (rows ++ rows2, d.2.2 ++ calls2, cache2, err2)

/-- The account loop of `main` (line 44 onward). -/
def runAccounts (env : Env) (userMap : List (String × (String × String)))
    (groupMap : List (String × GroupEntry)) :
    List (String × String) → List (String × PermInfo) →
    List (List (String × String)) × List String × List (String × PermInfo) × Option PyErr
  | [], cache => ([], [], cache, none)
  | (accountId, accountName) :: rest, cache =>
    match runPermSets env userMap groupMap accountId accountName
        (env.permSets accountId) cache with
    | (rows, calls, cache1, some e) => (rows, calls, cache1, some e)
    | (rows, calls, cache1, none) =>
      match runAccounts env userMap groupMap rest cache1 with
      | (rows2, calls2, cache2, err2) =>
        (rows ++ rows2, calls ++ calls2, cache2, err2)

/-- The observable outcome of one run of `main`: whether the header was
written (the output file is opened, and the header written, only after the
directory maps are built), the data rows written in order, the trace of
describe API calls, and the aborting error if the run did not complete. -/
structure RunResult where
  headerWritten : Bool
  rows : List (List (String × String))
  calls : List String
  error : Option PyErr
deriving Repr

/-- `main`: build `user_map` and `group_map`, then open the CSV, write the
header, and walk accounts.  A directory-load failure happens before the
output file is opened. -/
def runMain (env : Env) : RunResult :=
  let userMap := buildUserMap env.users
  match buildGroupMap userMap env.memberships env.groups [] with
  | .error e => ⟨false, [], [], some e⟩
  | .ok groupMap =>
    match runAccounts env userMap groupMap env.accounts [] with
    | (rows, calls, _, err) => ⟨true, rows, calls, err⟩

/-- The content of `sso_report.csv` as a list of cell lists: the header row
followed by the rendered data rows (empty if the run aborted before the file
was opened). -/
def csvOutput (env : Env) : List (List String) :=
  match runMain env with
  | res => if res.headerWritten then field_names :: res.rows.map csvCells else []

/-- All permission-set ARNs a complete run would iterate over (line 46),
with multiplicity, across all accounts. -/
def allArns (env : Env) : List String :=
  (env.accounts.map (fun p => env.permSets p.1)).flatten

/-- A row whose user columns were resolved from the given directory: the
`USER_ID` cell holds some listed user's username and the `USER_NAME` cell that
same user's display name (the naming quirk of the output schema). -/
def RowFromDirectory (users : List User) (r : List (String × String)) : Prop :=
  ∃ u ∈ users, cell r "USER_ID" = u.userName ∧ cell r "USER_NAME" = u.displayName

/-- A small happy-path environment: one account, one permission set, one
group assignment and one user assignment. -/
def envW : Env where
  users := [⟨"u1", "alice", "Alice A"⟩, ⟨"u2", "bob", "Bob B"⟩]
  groups := [⟨"g1", "Admins", none⟩]
  memberships := fun gid => if gid == "g1" then ["u2", "u1"] else []
  accounts := [("111", "Prod")]
  permSets := fun _ => ["ps-1"]
  permDescribe := fun _ => ⟨"Admin", some "full access"⟩
  assignments := fun _ _ => [⟨"GROUP", "g1"⟩, ⟨"USER", "u1"⟩]

/-- An environment whose only group has a membership entry referencing a user
id absent from the user listing. -/
def envBad : Env where
  users := [⟨"u1", "alice", "Alice A"⟩]
  groups := [⟨"g1", "Admins", some "admin group"⟩]
  memberships := fun _ => ["u-unknown"]
  accounts := [("111", "Prod")]
  permSets := fun _ => ["ps-1"]
  permDescribe := fun _ => ⟨"Admin", none⟩
  assignments := fun _ _ => []

/-- 129 distinct permission-set ARNs, one more than the lru_cache default
capacity. -/
def bigArns : List String := (List.range 129).map (fun i => "ps" ++ toString i)

/-- An environment whose first account has 129 distinct permission sets
provisioned and whose second account re-encounters the first ARN after it has
been evicted from the LRU cache. -/
def envC3 : Env where
  users := []
  groups := []
  memberships := fun _ => []
  accounts := [("a1", "A1"), ("a2", "A2")]
  permSets := fun aid => if aid == "a1" then bigArns else ["ps0"]
  permDescribe := fun _ => ⟨"P", none⟩
  assignments := fun _ _ => []

/-! ### Properties of the sort order -/

theorem charListLt_irrefl : ∀ a, charListLt a a = false
  | [] => rfl
  | x :: xs => by
    simp only [charListLt]
    rw [if_neg (Nat.lt_irrefl _), if_neg (Nat.lt_irrefl _)]
    exact charListLt_irrefl xs

theorem charListLt_trans : ∀ a b c, charListLt a b = true → charListLt b c = true →
    charListLt a c = true
  | [], [], _ => by simp [charListLt]
  | [], _ :: _, [] => by intro _ h; simp [charListLt] at h
  | [], _ :: _, _ :: _ => by intro _ _; simp [charListLt]
  | _ :: _, [], _ => by intro h _; simp [charListLt] at h
  | _ :: _, _ :: _, [] => by intro _ h; simp [charListLt] at h
  | a :: as, b :: bs, c :: cs => by
    intro hab hbc
    simp only [charListLt] at hab hbc ⊢
    by_cases h1 : a.toNat < b.toNat
    · by_cases h2 : b.toNat < c.toNat
      · rw [if_pos (show a.toNat < c.toNat by omega)]
      · by_cases h4 : c.toNat < b.toNat
        · rw [if_neg h2, if_pos h4] at hbc; cases hbc
        · rw [if_pos (show a.toNat < c.toNat by omega)]
    · by_cases h3 : b.toNat < a.toNat
      · rw [if_neg h1, if_pos h3] at hab; cases hab
      · rw [if_neg h1, if_neg h3] at hab
        by_cases h2 : b.toNat < c.toNat
        · rw [if_pos (show a.toNat < c.toNat by omega)]
        · by_cases h4 : c.toNat < b.toNat
          · rw [if_neg h2, if_pos h4] at hbc; cases hbc
          · rw [if_neg h2, if_neg h4] at hbc
            rw [if_neg (show ¬ a.toNat < c.toNat by omega),
              if_neg (show ¬ c.toNat < a.toNat by omega)]
            exact charListLt_trans as bs cs hab hbc

theorem charListLt_connex : ∀ a b, charListLt a b = false → charListLt b a = false →
    a = b
  | [], [] => by intro _ _; rfl
  | [], _ :: _ => by intro h _; simp [charListLt] at h
  | _ :: _, [] => by intro _ h; simp [charListLt] at h
  | a :: as, b :: bs => by
    intro hab hba
    simp only [charListLt] at hab hba
    by_cases h1 : a.toNat < b.toNat
    · rw [if_pos h1] at hab; cases hab
    · by_cases h2 : b.toNat < a.toNat
      · rw [if_pos h2] at hba; cases hba
      · rw [if_neg h1, if_neg h2] at hab
        rw [if_neg h2, if_neg h1] at hba
        have hc : a = b := Char.ext (UInt32.toNat.inj (show a.toNat = b.toNat by omega))
        rw [hc, charListLt_connex as bs hab hba]

theorem charListLt_asymm : ∀ a b, charListLt a b = true → charListLt b a = false := by
  intro a b h
  cases hba : charListLt b a
  · rfl
  · have h2 := charListLt_trans a b a h hba
    rw [charListLt_irrefl] at h2
    cases h2

theorem strLt_trans {a b c : String} (h1 : strLt a b = true) (h2 : strLt b c = true) :
    strLt a c = true :=
  charListLt_trans a.data b.data c.data h1 h2

theorem strLt_connex {a b : String} (h1 : strLt a b = false) (h2 : strLt b a = false) :
    a = b :=
  String.ext (charListLt_connex a.data b.data h1 h2)

theorem strLt_asymm {a b : String} (h : strLt a b = true) : strLt b a = false :=
  charListLt_asymm a.data b.data h

theorem strLt_irrefl (a : String) : strLt a a = false :=
  charListLt_irrefl a.data

theorem strLe_trans {a b c : String} (h1 : strLe a b = true) (h2 : strLe b c = true) :
    strLe a c = true := by
  simp only [strLe, Bool.or_eq_true, beq_iff_eq] at h1 h2 ⊢
  rcases h1 with h1 | rfl
  · rcases h2 with h2 | rfl
    · exact Or.inl (strLt_trans h1 h2)
    · exact Or.inl h1
  · exact h2

theorem strLe_total (a b : String) : strLe a b = true ∨ strLe b a = true := by
  simp only [strLe, Bool.or_eq_true, beq_iff_eq]
  cases hab : strLt a b
  · cases hba : strLt b a
    · exact Or.inl (Or.inr (strLt_connex hab hba))
    · exact Or.inr (Or.inl rfl)
  · exact Or.inl (Or.inl rfl)

theorem pairLe_trans {a b c : String × String} (h1 : pairLe a b = true)
    (h2 : pairLe b c = true) : pairLe a c = true := by
  unfold pairLe at h1 h2 ⊢
  cases hab : strLt a.1 b.1
  · cases hba : strLt b.1 a.1
    · have e1 : a.1 = b.1 := strLt_connex hab hba
      simp only [hab, hba] at h1
      simp at h1
      cases hbc : strLt b.1 c.1
      · cases hcb : strLt c.1 b.1
        · have e2 : b.1 = c.1 := strLt_connex hbc hcb
          simp only [hbc, hcb] at h2
          simp at h2
          have hac : strLt a.1 c.1 = false := by rw [e1, e2]; exact strLt_irrefl _
          have hca : strLt c.1 a.1 = false := by rw [e1, e2]; exact strLt_irrefl _
          simp [hac, hca, strLe_trans h1 h2]
        · simp [hbc, hcb] at h2
      · have hac : strLt a.1 c.1 = true := by rw [e1]; exact hbc
        simp [hac]
    · simp [hab, hba] at h1
  · cases hbc : strLt b.1 c.1
    · cases hcb : strLt c.1 b.1
      · have e2 : b.1 = c.1 := strLt_connex hbc hcb
        have hac : strLt a.1 c.1 = true := by rw [← e2]; exact hab
        simp [hac]
      · simp [hbc, hcb] at h2
    · simp [strLt_trans hab hbc]

theorem pairLe_total (a b : String × String) : pairLe a b = true ∨ pairLe b a = true := by
  unfold pairLe
  cases hab : strLt a.1 b.1
  · cases hba : strLt b.1 a.1
    · rcases strLe_total a.2 b.2 with h | h <;> simp [h]
    · simp
  · simp

instance : IsTrans (String × String) PairLeR :=
  ⟨fun _ _ _ h1 h2 => pairLe_trans h1 h2⟩

instance : IsTotal (String × String) PairLeR :=
  ⟨fun a b => pairLe_total a b⟩

/-! ### Directory-map lemmas -/

theorem dget_cons {α : Type} (k : String) (v : α) (m : List (String × α)) (q : String) :
    dget ((k, v) :: m) q = if k == q then some v else dget m q := by
  simp only [dget, List.find?]
  cases h : k == q <;> simp [h]

theorem dget_nil {α : Type} (q : String) : dget ([] : List (String × α)) q = none := rfl

theorem buildUserMap_values_aux : ∀ (users : List User)
    (acc : List (String × (String × String))) (uid : String) (p : String × String),
    dget (users.foldl (fun m u => (u.userId, (u.userName, u.displayName)) :: m) acc) uid
      = some p →
    (∃ u ∈ users, uid = u.userId ∧ p = (u.userName, u.displayName)) ∨ dget acc uid = some p
  | [], _, _, _ => fun h => Or.inr h
  | u :: us, acc, uid, p => by
    intro h
    rcases buildUserMap_values_aux us _ uid p h with h1 | h1
    · rcases h1 with ⟨w, hw, h2, h3⟩
      exact Or.inl ⟨w, List.mem_cons_of_mem _ hw, h2, h3⟩
    · rw [dget_cons] at h1
      by_cases he : u.userId == uid
      · rw [if_pos he] at h1
        exact Or.inl ⟨u, List.mem_cons_self _ _,
          (beq_iff_eq.mp he).symm, (Option.some_inj.mp h1).symm⟩
      · rw [if_neg he] at h1
        exact Or.inr h1

theorem buildUserMap_values {users : List User} {uid : String} {p : String × String}
    (h : dget (buildUserMap users) uid = some p) :
    ∃ u ∈ users, uid = u.userId ∧ p = (u.userName, u.displayName) := by
  rcases buildUserMap_values_aux users [] uid p h with h1 | h1
  · exact h1
  · rw [dget_nil] at h1; cases h1

theorem resolveMembers_ok_mem (um : List (String × (String × String))) :
    ∀ (ids : List String) (l : List (String × String)) (p : String × String),
    resolveMembers um ids = .ok l → p ∈ l → ∃ uid ∈ ids, dget um uid = some p
  | [], l, p => by
    intro h hp
    cases h
    cases hp
  | uid :: rest, l, p => by
    intro h hp
    simp only [resolveMembers] at h
    cases hu : dget um uid with
    | none => rw [hu] at h; cases h
    | some q =>
      rw [hu] at h
      cases hr : resolveMembers um rest with
      | error e => rw [hr] at h; cases h
      | ok l2 =>
        rw [hr] at h
        cases h
        rcases List.mem_cons.mp hp with rfl | hp2
        · exact ⟨uid, List.mem_cons_self _ _, hu⟩
        · rcases resolveMembers_ok_mem um rest l2 p hr hp2 with ⟨w, hw, h2⟩
          exact ⟨w, List.mem_cons_of_mem _ hw, h2⟩

theorem resolveMembers_ok_length (um : List (String × (String × String))) :
    ∀ (ids : List String) (l : List (String × String)),
    resolveMembers um ids = .ok l → l.length = ids.length
  | [], l => by intro h; cases h; rfl
  | uid :: rest, l => by
    intro h
    simp only [resolveMembers] at h
    cases hu : dget um uid with
    | none => rw [hu] at h; cases h
    | some q =>
      rw [hu] at h
      cases hr : resolveMembers um rest with
      | error e => rw [hr] at h; cases h
      | ok l2 =>
        rw [hr] at h
        cases h
        simp [resolveMembers_ok_length um rest l2 hr]

theorem resolveMembers_error_inv (um : List (String × (String × String))) :
    ∀ (ids : List String) (e : PyErr), resolveMembers um ids = .error e →
    ∃ uid ∈ ids, e = .keyError uid ∧ dget um uid = none
  | [], e => by intro h; cases h
  | uid :: rest, e => by
    intro h
    simp only [resolveMembers] at h
    cases hu : dget um uid with
    | none =>
      rw [hu] at h
      cases h
      exact ⟨uid, List.mem_cons_self _ _, rfl, hu⟩
    | some q =>
      rw [hu] at h
      cases hr : resolveMembers um rest with
      | error e2 =>
        rw [hr] at h
        injection h with h
        subst h
        rcases resolveMembers_error_inv um rest e2 hr with ⟨w, hw, h2, h3⟩
        exact ⟨w, List.mem_cons_of_mem _ hw, h2, h3⟩
      | ok l2 => rw [hr] at h; cases h

theorem resolveMembers_err (um : List (String × (String × String))) :
    ∀ (ids : List String), (∃ uid ∈ ids, dget um uid = none) →
    ∃ uid ∈ ids, resolveMembers um ids = .error (.keyError uid) ∧ dget um uid = none
  | [] => by rintro ⟨uid, h, -⟩; cases h
  | uid :: rest => by
    rintro ⟨w, hw, hnone⟩
    simp only [resolveMembers]
    cases hu : dget um uid with
    | none => exact ⟨uid, List.mem_cons_self _ _, rfl, hu⟩
    | some q =>
      have hwr : w ∈ rest := by
        rcases List.mem_cons.mp hw with rfl | h2
        · rw [hu] at hnone; cases hnone
        · exact h2
      rcases resolveMembers_err um rest ⟨w, hwr, hnone⟩ with ⟨w2, hw2, herr, hn2⟩
      refine ⟨w2, List.mem_cons_of_mem _ hw2, ?_, hn2⟩
      rw [herr]

theorem resolveMembers_count (um : List (String × (String × String))) :
    ∀ (ids : List String) (l : List (String × String)) (p : String × String),
    resolveMembers um ids = .ok l →
    l.count p = ids.countP (fun uid => dget um uid == some p)
  | [], l, p => by intro h; cases h; rfl
  | uid :: rest, l, p => by
    intro h
    simp only [resolveMembers] at h
    cases hu : dget um uid with
    | none => rw [hu] at h; cases h
    | some q =>
      rw [hu] at h
      cases hr : resolveMembers um rest with
      | error e => rw [hr] at h; cases h
      | ok l2 =>
        rw [hr] at h
        cases h
        rw [List.count_cons, List.countP_cons, resolveMembers_count um rest l2 p hr, hu]
        have : ((some q == some p) : Bool) = (q == p) := rfl
        rw [this]

theorem buildGroupMap_err (um : List (String × (String × String)))
    (mships : String → List String) :
    ∀ (groups : List Group) (acc : List (String × GroupEntry)),
    (∃ g ∈ groups, ∃ uid ∈ mships g.groupId, dget um uid = none) →
    ∃ uid, buildGroupMap um mships groups acc = .error (.keyError uid) ∧
      dget um uid = none
  | [], _ => by rintro ⟨g, hg, -⟩; cases hg
  | g :: rest, acc => by
    rintro ⟨w, hw, hex⟩
    simp only [buildGroupMap]
    cases hr : resolveMembers um (mships g.groupId) with
    | error e =>
      rcases resolveMembers_error_inv um _ e hr with ⟨uid, _, rfl, hn⟩
      exact ⟨uid, rfl, hn⟩
    | ok l =>
      have hwr : w ∈ rest := by
        rcases List.mem_cons.mp hw with rfl | h2
        · rcases resolveMembers_err um _ hex with ⟨uid, _, herr, -⟩
          rw [herr] at hr
          cases hr
        · exact h2
      exact buildGroupMap_err um mships rest _ ⟨w, hwr, hex⟩

theorem buildGroupMap_entries (um : List (String × (String × String)))
    (mships : String → List String) :
    ∀ (groups : List Group) (acc gm : List (String × GroupEntry)),
    buildGroupMap um mships groups acc = .ok gm →
    ∀ (gid : String) (ge : GroupEntry), dget gm gid = some ge →
      dget acc gid = some ge ∨
      ∃ g ∈ groups, gid = g.groupId ∧ ge.name = g.displayName ∧
        ge.desc = g.description.getD "" ∧
        ∃ l, resolveMembers um (mships g.groupId) = .ok l ∧
          ge.members = l.insertionSort PairLeR
  | [], acc, gm => by
    intro h gid ge hget
    cases h
    exact Or.inl hget
  | g :: rest, acc, gm => by
    intro h gid ge hget
    simp only [buildGroupMap] at h
    cases hr : resolveMembers um (mships g.groupId) with
    | error e => rw [hr] at h; cases h
    | ok l =>
      rw [hr] at h
      rcases buildGroupMap_entries um mships rest _ gm h gid ge hget with h1 | h1
      · rw [dget_cons] at h1
        by_cases he : g.groupId == gid
        · rw [if_pos he] at h1
          refine Or.inr ⟨g, List.mem_cons_self _ _, (beq_iff_eq.mp he).symm, ?_⟩
          cases Option.some_inj.mp h1
          exact ⟨rfl, rfl, l, hr, rfl⟩
        · rw [if_neg he] at h1
          exact Or.inl h1
      · rcases h1 with ⟨g2, hg2, hrest⟩
        exact Or.inr ⟨g2, List.mem_cons_of_mem _ hg2, hrest⟩

/-! ### Per-assignment claims -/

/-- C1: an assignment of principal type GROUP to a group whose member list has
|M| entries emits exactly |M| rows, one per member, each carrying the same
group metadata; an assignment of principal type USER emits exactly one row,
whose GROUP and GROUP_DESC columns are empty. -/
theorem C1_fanout (userMap : List (String × (String × String)))
    (groupMap : List (String × GroupEntry))
    (accountId accountName permArn permName permDesc : String) (a : Assignment) :
    (∀ ge : GroupEntry, a.principalType = "GROUP" →
      dget groupMap a.principalId = some ge →
      ∃ rows, rowsForAssignment userMap groupMap accountId accountName permArn
          permName permDesc a = .ok rows ∧
        rows.length = ge.members.length ∧
        ∀ r ∈ rows, cell r "GROUP" = ge.name ∧ cell r "GROUP_DESC" = ge.desc) ∧
    (∀ p : String × String, a.principalType = "USER" →
      dget userMap a.principalId = some p →
      ∃ r, rowsForAssignment userMap groupMap accountId accountName permArn
          permName permDesc a = .ok [r] ∧
        cell r "GROUP" = "" ∧ cell r "GROUP_DESC" = "") := by
  constructor
  · intro ge hty hget
    refine ⟨ge.members.map (fun p => groupRow accountId accountName permArn
      permName permDesc a.principalType ge.name ge.desc p.1 p.2), ?_, ?_, ?_⟩
    · simp [rowsForAssignment, hty, hget]
    · simp
    · intro r hr
      rcases List.mem_map.mp hr with ⟨p, hp, rfl⟩
      exact ⟨rfl, rfl⟩
  · intro p hty hget
    refine ⟨userRow accountId accountName permArn permName permDesc
      a.principalType p.1 p.2, ?_, rfl, rfl⟩
    simp [rowsForAssignment, hty, hget]

theorem C1_fanout_witness :
    (∃ rows, rowsForAssignment [("u1", ("alice", "Alice A"))]
        [("g1", ⟨"Admins", "", [("alice", "Alice A"), ("bob", "Bob B")]⟩)]
        "111" "Prod" "ps-1" "Admin" "full" ⟨"GROUP", "g1"⟩ = .ok rows ∧
      rows.length = 2 ∧
      ∀ r ∈ rows, cell r "GROUP" = "Admins" ∧ cell r "GROUP_DESC" = "") ∧
    (∃ r, rowsForAssignment [("u1", ("alice", "Alice A"))]
        [("g1", ⟨"Admins", "", [("alice", "Alice A"), ("bob", "Bob B")]⟩)]
        "111" "Prod" "ps-1" "Admin" "full" ⟨"USER", "u1"⟩ = .ok [r] ∧
      cell r "GROUP" = "" ∧ cell r "GROUP_DESC" = "") := by
  constructor
  · rcases (C1_fanout [("u1", ("alice", "Alice A"))]
        [("g1", ⟨"Admins", "", [("alice", "Alice A"), ("bob", "Bob B")]⟩)]
        "111" "Prod" "ps-1" "Admin" "full" ⟨"GROUP", "g1"⟩).1
        ⟨"Admins", "", [("alice", "Alice A"), ("bob", "Bob B")]⟩ rfl rfl with
      ⟨rows, h1, h2, h3⟩
    exact ⟨rows, h1, h2.trans rfl, h3⟩
  · exact (C1_fanout [("u1", ("alice", "Alice A"))]
        [("g1", ⟨"Admins", "", [("alice", "Alice A"), ("bob", "Bob B")]⟩)]
        "111" "Prod" "ps-1" "Admin" "full" ⟨"USER", "u1"⟩).2
        ("alice", "Alice A") rfl rfl

/-- C2: all rows emitted for one GROUP-type assignment agree on every column
other than USER_ID and USER_NAME. -/
theorem C2_shared_columns (userMap : List (String × (String × String)))
    (groupMap : List (String × GroupEntry))
    (accountId accountName permArn permName permDesc : String) (a : Assignment)
    (rows : List (List (String × String)))
    (hty : a.principalType = "GROUP")
    (hok : rowsForAssignment userMap groupMap accountId accountName permArn
      permName permDesc a = .ok rows) :
    ∀ r1 ∈ rows, ∀ r2 ∈ rows, ∀ k ∈ field_names,
      k ≠ "USER_ID" → k ≠ "USER_NAME" → cell r1 k = cell r2 k := by
  cases hget : dget groupMap a.principalId with
  | none => simp [rowsForAssignment, hty, hget] at hok
  | some ge =>
    have hrows : rows = ge.members.map (fun p => groupRow accountId accountName
        permArn permName permDesc "GROUP" ge.name ge.desc p.1 p.2) := by
      simp [rowsForAssignment, hty, hget] at hok
      exact hok.symm
    subst hrows
    intro r1 hr1 r2 hr2 k hk hne1 hne2
    rcases List.mem_map.mp hr1 with ⟨p, hp, rfl⟩
    rcases List.mem_map.mp hr2 with ⟨q, hq, rfl⟩
    simp only [field_names, List.mem_cons, List.not_mem_nil, or_false] at hk
    rcases hk with rfl | rfl | rfl | rfl | rfl | rfl | rfl | rfl | rfl | rfl
    · rfl
    · rfl
    · rfl
    · rfl
    · rfl
    · rfl
    · rfl
    · rfl
    · exact absurd rfl hne1
    · exact absurd rfl hne2

theorem C2_shared_columns_witness :
    cell (groupRow "111" "Prod" "ps-1" "Admin" "full" "GROUP" "Admins" "adm"
        "alice" "Alice A")
      "PERM_ARN" =
    cell (groupRow "111" "Prod" "ps-1" "Admin" "full" "GROUP" "Admins" "adm"
        "bob" "Bob B")
      "PERM_ARN" := by
  refine C2_shared_columns [] [("g1", ⟨"Admins", "adm",
      [("alice", "Alice A"), ("bob", "Bob B")]⟩)]
    "111" "Prod" "ps-1" "Admin" "full" ⟨"GROUP", "g1"⟩ _ rfl rfl
    _ ?_ _ ?_ "PERM_ARN" ?_ ?_ ?_
  · decide
  · decide
  · decide
  · decide
  · decide

/-- C7: a USER-type assignment whose principal id is absent from the user map
fails with a key-lookup error at that assignment, emitting no row for it, and
the assignment loop stops there. -/
theorem C7_user_missing (userMap : List (String × (String × String)))
    (groupMap : List (String × GroupEntry))
    (accountId accountName permArn permName permDesc : String) (a : Assignment)
    (rest : List Assignment)
    (hty : a.principalType = "USER")
    (habs : dget userMap a.principalId = none) :
    rowsForAssignment userMap groupMap accountId accountName permArn permName
      permDesc a = .error (.keyError a.principalId) ∧
    runAssignmentsList userMap groupMap accountId accountName permArn permName
      permDesc (a :: rest) = ([], some (.keyError a.principalId)) := by
  have h1 : rowsForAssignment userMap groupMap accountId accountName permArn
      permName permDesc a = .error (.keyError a.principalId) := by
    simp [rowsForAssignment, hty, habs]
  exact ⟨h1, by simp [runAssignmentsList, h1]⟩

theorem C7_user_missing_witness :
    rowsForAssignment [("u1", ("alice", "Alice A"))] [] "111" "Prod" "ps-1"
      "Admin" "full" ⟨"USER", "u-gone"⟩ = .error (.keyError "u-gone") ∧
    runAssignmentsList [("u1", ("alice", "Alice A"))] [] "111" "Prod" "ps-1"
      "Admin" "full" [⟨"USER", "u-gone"⟩] = ([], some (.keyError "u-gone")) :=
  C7_user_missing [("u1", ("alice", "Alice A"))] [] "111" "Prod" "ps-1"
    "Admin" "full" ⟨"USER", "u-gone"⟩ [] rfl rfl

/-- C8: the identity-center resolver returns the (instance arn,
identity-store id) pair of the first entry of the instance listing, and on an
empty listing fails with the out-of-range error, which is the only error it
can produce. -/
theorem C8_identity_center :
    (∀ (inst : SsoInstance) (rest : List SsoInstance),
      get_identity_center (inst :: rest) =
        .ok (inst.instanceArn, inst.identityStoreId)) ∧
    get_identity_center [] = .error .indexError :=
  ⟨fun _ _ => rfl, rfl⟩

/-- C9: an assignment whose principal type is neither USER nor GROUP emits no
row, raises no error, and the loop continues with the remaining assignments
unchanged. -/
theorem C9_skip (userMap : List (String × (String × String)))
    (groupMap : List (String × GroupEntry))
    (accountId accountName permArn permName permDesc : String) (a : Assignment)
    (rest : List Assignment)
    (h1 : a.principalType ≠ "USER") (h2 : a.principalType ≠ "GROUP") :
    rowsForAssignment userMap groupMap accountId accountName permArn permName
      permDesc a = .ok [] ∧
    runAssignmentsList userMap groupMap accountId accountName permArn permName
      permDesc (a :: rest) =
      runAssignmentsList userMap groupMap accountId accountName permArn
        permName permDesc rest := by
  have hb1 : (a.principalType == "USER") = false := by simp [h1]
  have hb2 : (a.principalType == "GROUP") = false := by simp [h2]
  have h : rowsForAssignment userMap groupMap accountId accountName permArn
      permName permDesc a = .ok [] := by
    simp [rowsForAssignment, hb1, hb2]
  refine ⟨h, ?_⟩
  rcases hr : runAssignmentsList userMap groupMap accountId accountName permArn
      permName permDesc rest with ⟨more, err⟩
  simp [runAssignmentsList, h, hr]

theorem C9_skip_witness :
    rowsForAssignment [("u1", ("alice", "Alice A"))] [] "111" "Prod" "ps-1"
      "Admin" "full" ⟨"FOREIGN", "x"⟩ = .ok [] ∧
    runAssignmentsList [("u1", ("alice", "Alice A"))] [] "111" "Prod" "ps-1"
      "Admin" "full" [⟨"FOREIGN", "x"⟩, ⟨"USER", "u1"⟩] =
      runAssignmentsList [("u1", ("alice", "Alice A"))] [] "111" "Prod" "ps-1"
        "Admin" "full" [⟨"USER", "u1"⟩] :=
  C9_skip [("u1", ("alice", "Alice A"))] [] "111" "Prod" "ps-1" "Admin" "full"
    ⟨"FOREIGN", "x"⟩ [⟨"USER", "u1"⟩] (by decide) (by decide)

/-- C5: every member list stored in the group map at directory-load time is
sorted ascending by the (username, displayname) pair, so the rows emitted for
a GROUP-type assignment list exactly those pairs in that sorted order. -/
theorem C5_members_sorted (um : List (String × (String × String)))
    (mships : String → List String) (groups : List Group)
    (gm : List (String × GroupEntry))
    (hgm : buildGroupMap um mships groups [] = .ok gm) :
    ∀ (gid : String) (ge : GroupEntry), dget gm gid = some ge →
      List.Sorted PairLeR ge.members ∧
      ∀ (groupMap : List (String × GroupEntry)) (a : Assignment)
        (accountId accountName permArn permName permDesc : String),
        a.principalType = "GROUP" → dget groupMap a.principalId = some ge →
        ∃ rows, rowsForAssignment um groupMap accountId accountName permArn
            permName permDesc a = .ok rows ∧
          rows.map (fun r => (cell r "USER_ID", cell r "USER_NAME")) =
            ge.members := by
  intro gid ge hget
  rcases buildGroupMap_entries um mships groups [] gm hgm gid ge hget with h | h
  · rw [dget_nil] at h; cases h
  · rcases h with ⟨g, hg, -, -, -, l, hl, hme⟩
    constructor
    · rw [hme]
      exact List.sorted_insertionSort PairLeR l
    · intro groupMap a accountId accountName permArn permName permDesc hty hget2
      refine ⟨ge.members.map (fun p => groupRow accountId accountName permArn
        permName permDesc a.principalType ge.name ge.desc p.1 p.2), ?_, ?_⟩
      · simp [rowsForAssignment, hty, hget2]
      · rw [List.map_map]
        have hcomp : ((fun r => (cell r "USER_ID", cell r "USER_NAME")) ∘
            fun p : String × String => groupRow accountId accountName permArn
              permName permDesc a.principalType ge.name ge.desc p.1 p.2) =
            fun p : String × String => (p.1, p.2) := by
          funext p
          rfl
        rw [hcomp]
        simp

theorem C5_members_sorted_witness :
    List.Sorted PairLeR [("alice", "Alice A"), ("bob", "Bob B")] ∧
    ∃ rows, rowsForAssignment
        [("u1", ("alice", "Alice A")), ("u2", ("bob", "Bob B"))]
        [("g1", ⟨"Admins", "", [("alice", "Alice A"), ("bob", "Bob B")]⟩)]
        "111" "Prod" "ps-1" "Admin" "full" ⟨"GROUP", "g1"⟩ = .ok rows ∧
      rows.map (fun r => (cell r "USER_ID", cell r "USER_NAME")) =
        [("alice", "Alice A"), ("bob", "Bob B")] := by
  have h := C5_members_sorted
    [("u1", ("alice", "Alice A")), ("u2", ("bob", "Bob B"))]
    (fun gid => if gid == "g1" then ["u2", "u1"] else [])
    [⟨"g1", "Admins", none⟩]
    [("g1", ⟨"Admins", "", [("alice", "Alice A"), ("bob", "Bob B")]⟩)]
    rfl "g1" ⟨"Admins", "", [("alice", "Alice A"), ("bob", "Bob B")]⟩ rfl
  exact ⟨h.1, h.2
    [("g1", ⟨"Admins", "", [("alice", "Alice A"), ("bob", "Bob B")]⟩)]
    ⟨"GROUP", "g1"⟩ "111" "Prod" "ps-1" "Admin" "full" rfl rfl⟩

/-- C6: a group membership referencing a user id absent from the user map
makes the run fail with a key-lookup error during directory load and abort
before the output file receives anything: no header, no rows. -/
theorem C6_abort_before_rows (env : Env)
    (h : ∃ g ∈ env.groups, ∃ uid ∈ env.memberships g.groupId,
      dget (buildUserMap env.users) uid = none) :
    (runMain env).headerWritten = false ∧ (runMain env).rows = [] ∧
    ∃ uid, (runMain env).error = some (.keyError uid) ∧
      dget (buildUserMap env.users) uid = none := by
  rcases buildGroupMap_err (buildUserMap env.users) env.memberships env.groups
    [] h with ⟨uid, herr, hn⟩
  have hmain : runMain env = ⟨false, [], [], some (.keyError uid)⟩ := by
    simp only [runMain, herr]
  rw [hmain]
  exact ⟨rfl, rfl, uid, rfl, hn⟩

theorem C6_abort_before_rows_witness :
    (runMain envBad).headerWritten = false ∧ (runMain envBad).rows = [] ∧
    ∃ uid, (runMain envBad).error = some (.keyError uid) ∧
      dget (buildUserMap envBad.users) uid = none :=
  C6_abort_before_rows envBad (by decide)

theorem countP_resolved_eq_count (um : List (String × (String × String)))
    (p : String × String) (uid : String) (hp : dget um uid = some p) :
    ∀ ids : List String, (∀ uid2 ∈ ids, dget um uid2 = some p → uid2 = uid) →
    ids.countP (fun uid2 => dget um uid2 == some p) = ids.count uid
  | [], _ => rfl
  | x :: rest, h => by
    rw [List.countP_cons, List.count_cons,
      countP_resolved_eq_count um p uid hp rest
        (fun u hu hd => h u (List.mem_cons_of_mem _ hu) hd)]
    congr 1
    by_cases hx : dget um x = some p
    · have hxe : x = uid := h x (List.mem_cons_self _ _) hx
      subst hxe
      simp [hx]
    · have hne : x ≠ uid := fun he => hx (he ▸ hp)
      simp [hx, hne]

/-- C10: members are not deduplicated: a user id yielded k times by the
membership listing puts that user's (username, displayname) pair k times into
the stored member list, and a GROUP-type assignment to that group emits k
rows for that user. -/
theorem C10_no_dedup (um : List (String × (String × String)))
    (ids : List String) (uid : String) (p : String × String)
    (l : List (String × String))
    (hp : dget um uid = some p)
    (huniq : ∀ uid2 ∈ ids, dget um uid2 = some p → uid2 = uid)
    (hok : resolveMembers um ids = .ok l) :
    (l.insertionSort PairLeR).count p = ids.count uid ∧
    ∀ (groupMap : List (String × GroupEntry)) (a : Assignment)
      (accountId accountName permArn permName permDesc gname gdesc : String),
      a.principalType = "GROUP" →
      dget groupMap a.principalId =
        some ⟨gname, gdesc, l.insertionSort PairLeR⟩ →
      ∃ rows, rowsForAssignment um groupMap accountId accountName permArn
          permName permDesc a = .ok rows ∧
        (rows.filter (fun r => cell r "USER_ID" == p.1 &&
          cell r "USER_NAME" == p.2)).length = ids.count uid := by
  have hcnt : (l.insertionSort PairLeR).count p = ids.count uid := by
    rw [List.count_eq_countP, (List.perm_insertionSort PairLeR l).countP_eq,
      ← List.count_eq_countP, resolveMembers_count um ids l p hok,
      countP_resolved_eq_count um p uid hp ids huniq]
  refine ⟨hcnt, ?_⟩
  intro groupMap a accountId accountName permArn permName permDesc gname gdesc
    hty hget
  refine ⟨(l.insertionSort PairLeR).map (fun q => groupRow accountId
    accountName permArn permName permDesc a.principalType gname gdesc
    q.1 q.2), ?_, ?_⟩
  · simp [rowsForAssignment, hty, hget]
  · rw [List.filter_map, List.length_map, ← List.countP_eq_length_filter]
    have hpred : ((fun r => cell r "USER_ID" == p.1 &&
        cell r "USER_NAME" == p.2) ∘ fun q : String × String =>
          groupRow accountId accountName permArn permName permDesc
            a.principalType gname gdesc q.1 q.2) =
        (fun q : String × String => q == p) := by
      funext q
      rfl
    rw [hpred, ← List.count_eq_countP]
    exact hcnt

theorem C10_no_dedup_witness :
    (([("alice", "Alice A"), ("alice", "Alice A")] :
        List (String × String)).insertionSort PairLeR).count
      ("alice", "Alice A") = (["u1", "u1"] : List String).count "u1" ∧
    ∃ rows, rowsForAssignment [("u1", ("alice", "Alice A"))]
        [("g1", ⟨"Admins", "adm",
          ([("alice", "Alice A"), ("alice", "Alice A")] :
            List (String × String)).insertionSort PairLeR⟩)]
        "111" "Prod" "ps-1" "Admin" "full" ⟨"GROUP", "g1"⟩ = .ok rows ∧
      (rows.filter (fun r => cell r "USER_ID" == "alice" &&
        cell r "USER_NAME" == "Alice A")).length =
        (["u1", "u1"] : List String).count "u1" := by
  have h := C10_no_dedup [("u1", ("alice", "Alice A"))] ["u1", "u1"] "u1"
    ("alice", "Alice A") [("alice", "Alice A"), ("alice", "Alice A")]
    rfl (by decide) rfl
  exact ⟨h.1, h.2
    [("g1", ⟨"Admins", "adm",
      ([("alice", "Alice A"), ("alice", "Alice A")] :
        List (String × String)).insertionSort PairLeR⟩)]
    ⟨"GROUP", "g1"⟩ "111" "Prod" "ps-1" "Admin" "full" "Admins" "adm" rfl rfl⟩

/-! ### Provenance of the user columns (claim C4) -/

theorem rowsForAssignment_userCells (users : List User)
    (um : List (String × (String × String))) (gm : List (String × GroupEntry))
    (hum : ∀ uid p, dget um uid = some p →
      ∃ u ∈ users, p = (u.userName, u.displayName))
    (hgm : ∀ gid ge, dget gm gid = some ge → ∀ p ∈ ge.members,
      ∃ u ∈ users, p = (u.userName, u.displayName))
    (accountId accountName permArn permName permDesc : String) (a : Assignment)
    (rows : List (List (String × String)))
    (hok : rowsForAssignment um gm accountId accountName permArn permName
      permDesc a = .ok rows) :
    ∀ r ∈ rows, RowFromDirectory users r := by
  by_cases h1 : (a.principalType == "USER") = true
  · have hty : a.principalType = "USER" := beq_iff_eq.mp h1
    cases hu : dget um a.principalId with
    | none => simp [rowsForAssignment, hty, hu] at hok
    | some p =>
      have hrows : rows = [userRow accountId accountName permArn permName
          permDesc "USER" p.1 p.2] := by
        simp [rowsForAssignment, hty, hu] at hok
        exact hok.symm
      subst hrows
      intro r hr
      rcases List.mem_singleton.mp hr with rfl
      rcases hum a.principalId p hu with ⟨u, hu2, hp⟩
      exact ⟨u, hu2, by subst hp; rfl, by subst hp; rfl⟩
  · by_cases h2 : (a.principalType == "GROUP") = true
    · have hty : a.principalType = "GROUP" := beq_iff_eq.mp h2
      cases hg : dget gm a.principalId with
      | none => simp [rowsForAssignment, hty, hg] at hok
      | some ge =>
        have hrows : rows = ge.members.map (fun p => groupRow accountId
            accountName permArn permName permDesc "GROUP" ge.name ge.desc
            p.1 p.2) := by
          simp [rowsForAssignment, hty, hg] at hok
          exact hok.symm
        subst hrows
        intro r hr
        rcases List.mem_map.mp hr with ⟨p, hp, rfl⟩
        rcases hgm a.principalId ge hg p hp with ⟨u, hu2, hpe⟩
        exact ⟨u, hu2, by subst hpe; rfl, by subst hpe; rfl⟩
    · have hb1 : (a.principalType == "USER") = false := by
        cases hx : a.principalType == "USER"
        · rfl
        · exact absurd hx h1
      have hb2 : (a.principalType == "GROUP") = false := by
        cases hx : a.principalType == "GROUP"
        · rfl
        · exact absurd hx h2
      have hrows : rows = [] := by
        simp [rowsForAssignment, hb1, hb2] at hok
        exact hok
      subst hrows
      intro r hr
      cases hr

theorem runAssignmentsList_userCells (users : List User)
    (um : List (String × (String × String))) (gm : List (String × GroupEntry))
    (hum : ∀ uid p, dget um uid = some p →
      ∃ u ∈ users, p = (u.userName, u.displayName))
    (hgm : ∀ gid ge, dget gm gid = some ge → ∀ p ∈ ge.members,
      ∃ u ∈ users, p = (u.userName, u.displayName))
    (accountId accountName permArn permName permDesc : String) :
    ∀ (as : List Assignment),
    ∀ r ∈ (runAssignmentsList um gm accountId accountName permArn permName
      permDesc as).1, RowFromDirectory users r
  | [] => by intro r hr; cases hr
  | a :: rest => by
    intro r hr
    simp only [runAssignmentsList] at hr
    cases ha : rowsForAssignment um gm accountId accountName permArn permName
        permDesc a with
    | error e => rw [ha] at hr; cases hr
    | ok rows =>
      rw [ha] at hr
      rcases hrest : runAssignmentsList um gm accountId accountName permArn
          permName permDesc rest with ⟨more, err⟩
      rw [hrest] at hr
      rcases List.mem_append.mp hr with h | h
      · exact rowsForAssignment_userCells users um gm hum hgm accountId
          accountName permArn permName permDesc a rows ha r h
      · have := runAssignmentsList_userCells users um gm hum hgm accountId
          accountName permArn permName permDesc rest r
        rw [hrest] at this
        exact this h

theorem runPermSets_userCells (env : Env) (users : List User)
    (um : List (String × (String × String))) (gm : List (String × GroupEntry))
    (hum : ∀ uid p, dget um uid = some p →
      ∃ u ∈ users, p = (u.userName, u.displayName))
    (hgm : ∀ gid ge, dget gm gid = some ge → ∀ p ∈ ge.members,
      ∃ u ∈ users, p = (u.userName, u.displayName))
    (accountId accountName : String) :
    ∀ (ps : List String) (cache : List (String × PermInfo)),
    ∀ r ∈ (runPermSets env um gm accountId accountName ps cache).1,
      RowFromDirectory users r
  | [], _ => by intro r hr; cases hr
  | parn :: rest, cache => by
    intro r hr
    simp only [runPermSets] at hr
    rcases hA : runAssignmentsList um gm accountId accountName parn
        (describe_permission_set env cache parn).1.name
        ((describe_permission_set env cache parn).1.desc.getD "")
        (env.assignments accountId parn) with ⟨rows, errA⟩
    rw [hA] at hr
    have hrows : ∀ r2 ∈ rows, RowFromDirectory users r2 := by
      intro r2 hr2
      have := runAssignmentsList_userCells users um gm hum hgm accountId
        accountName parn (describe_permission_set env cache parn).1.name
        ((describe_permission_set env cache parn).1.desc.getD "")
        (env.assignments accountId parn) r2
      rw [hA] at this
      exact this hr2
    cases errA with
    | some e => exact hrows r hr
    | none =>
      rcases hrec : runPermSets env um gm accountId accountName rest
          (describe_permission_set env cache parn).2.1 with
        ⟨rows2, calls2, cache2, err2⟩
      simp only [hrec] at hr
      rcases List.mem_append.mp hr with h | h
      · exact hrows r h
      · have := runPermSets_userCells env users um gm hum hgm accountId
          accountName rest (describe_permission_set env cache parn).2.1 r
        rw [hrec] at this
        exact this h

theorem runAccounts_userCells (env : Env) (users : List User)
    (um : List (String × (String × String))) (gm : List (String × GroupEntry))
    (hum : ∀ uid p, dget um uid = some p →
      ∃ u ∈ users, p = (u.userName, u.displayName))
    (hgm : ∀ gid ge, dget gm gid = some ge → ∀ p ∈ ge.members,
      ∃ u ∈ users, p = (u.userName, u.displayName)) :
    ∀ (accounts : List (String × String)) (cache : List (String × PermInfo)),
    ∀ r ∈ (runAccounts env um gm accounts cache).1, RowFromDirectory users r
  | [], _ => by intro r hr; cases hr
  | (accountId, accountName) :: rest, cache => by
    intro r hr
    simp only [runAccounts] at hr
    rcases hP : runPermSets env um gm accountId accountName
        (env.permSets accountId) cache with ⟨rows, calls, cache1, errP⟩
    rw [hP] at hr
    have hrows : ∀ r2 ∈ rows, RowFromDirectory users r2 := by
      intro r2 hr2
      have := runPermSets_userCells env users um gm hum hgm accountId
        accountName (env.permSets accountId) cache r2
      rw [hP] at this
      exact this hr2
    cases errP with
    | some e => exact hrows r hr
    | none =>
      rcases hrec : runAccounts env um gm rest cache1 with
        ⟨rows2, calls2, cache2, err2⟩
      simp only [hrec] at hr
      rcases List.mem_append.mp hr with h | h
      · exact hrows r h
      · have := runAccounts_userCells env users um gm hum hgm rest cache1 r
        rw [hrec] at this
        exact this h

/-- C4: the CSV output is the header row, with columns exactly ACCOUNT_ID,
ACCOUNT_NAME, PERM_ARN, PERMISSION, PERM_DESC, PRINCIPAL_TYPE, GROUP,
GROUP_DESC, USER_ID, USER_NAME in that order, followed by the data rows
rendered in that column order; and every data row's USER_ID and USER_NAME
cells carry the resolved username and display name of a directory user (not
the raw user id). -/
theorem C4_schema (env : Env) (h : (runMain env).headerWritten = true) :
    csvOutput env = field_names :: (runMain env).rows.map csvCells ∧
    field_names = ["ACCOUNT_ID", "ACCOUNT_NAME", "PERM_ARN", "PERMISSION",
      "PERM_DESC", "PRINCIPAL_TYPE", "GROUP", "GROUP_DESC", "USER_ID",
      "USER_NAME"] ∧
    (∀ r, csvCells r = [cell r "ACCOUNT_ID", cell r "ACCOUNT_NAME",
      cell r "PERM_ARN", cell r "PERMISSION", cell r "PERM_DESC",
      cell r "PRINCIPAL_TYPE", cell r "GROUP", cell r "GROUP_DESC",
      cell r "USER_ID", cell r "USER_NAME"]) ∧
    ∀ r ∈ (runMain env).rows, RowFromDirectory env.users r := by
  refine ⟨by simp [csvOutput, h], rfl, fun r => rfl, ?_⟩
  intro r hr
  cases hbg : buildGroupMap (buildUserMap env.users) env.memberships
      env.groups [] with
  | error e =>
    have : runMain env = ⟨false, [], [], some e⟩ := by
      simp only [runMain, hbg]
    rw [this] at h
    cases h
  | ok gm =>
    have hum : ∀ uid p, dget (buildUserMap env.users) uid = some p →
        ∃ u ∈ env.users, p = (u.userName, u.displayName) := by
      intro uid p hp
      rcases buildUserMap_values hp with ⟨u, hu, -, hpe⟩
      exact ⟨u, hu, hpe⟩
    have hgm : ∀ gid ge, dget gm gid = some ge → ∀ p ∈ ge.members,
        ∃ u ∈ env.users, p = (u.userName, u.displayName) := by
      intro gid ge hge p hp
      rcases buildGroupMap_entries (buildUserMap env.users) env.memberships
          env.groups [] gm hbg gid ge hge with hacc | hsrc
      · rw [dget_nil] at hacc; cases hacc
      · rcases hsrc with ⟨g, -, -, -, -, l, hl, hme⟩
        rw [hme] at hp
        have hpl : p ∈ l := (List.mem_insertionSort PairLeR).mp hp
        rcases resolveMembers_ok_mem (buildUserMap env.users) _ l p hl hpl with
          ⟨uid2, -, hd⟩
        exact hum uid2 p hd
    rcases hra : runAccounts env (buildUserMap env.users) gm env.accounts []
      with ⟨rows, calls, cache, err⟩
    have hmain : runMain env = ⟨true, rows, calls, err⟩ := by
      simp only [runMain, hbg, hra]
    rw [hmain] at hr
    have := runAccounts_userCells env env.users (buildUserMap env.users) gm
      hum hgm env.accounts [] r
    rw [hra] at this
    exact this hr

theorem C4_schema_witness :
    csvOutput envW = field_names :: (runMain envW).rows.map csvCells ∧
    RowFromDirectory envW.users (userRow "111" "Prod" "ps-1" "Admin"
      "full access" "USER" "alice" "Alice A") := by
  have h := C4_schema envW (by decide)
  exact ⟨h.1, h.2.2.2 _ (by decide)⟩

/-! ### The permission-set describe cache (claim C3) -/

theorem mem_of_dget_some {α : Type} {c : List (String × α)} {k : String}
    {v : α} (h : dget c k = some v) : k ∈ c.map Prod.fst := by
  rcases Option.map_eq_some'.mp h with ⟨p, hp, -⟩
  have hm := List.mem_of_find?_eq_some hp
  have hpred := List.find?_some hp
  exact List.mem_map.mpr ⟨p, hm, beq_iff_eq.mp hpred⟩

theorem not_mem_of_dget_none {α : Type} {c : List (String × α)} {k : String}
    (h : dget c k = none) : k ∉ c.map Prod.fst := by
  intro hk
  rcases List.mem_map.mp hk with ⟨p, hp, rfl⟩
  have hf : c.find? (fun q => q.1 == p.1) = none := Option.map_eq_none'.mp h
  have := List.find?_eq_none.mp hf p hp
  simp at this

theorem map_fst_filter_key (arn : String) :
    ∀ c : List (String × PermInfo),
    (c.filter (fun p => !(p.1 == arn))).map Prod.fst =
      (c.map Prod.fst).filter (fun q => !(q == arn))
  | [] => rfl
  | p :: rest => by
    cases h : (p.1 == arn) with
    | true => simp [List.filter_cons, h, map_fst_filter_key arn rest]
    | false => simp [List.filter_cons, h, map_fst_filter_key arn rest]

theorem describe_keys (env : Env) (A : Finset String)
    (c : List (String × PermInfo)) (arn : String)
    (hnd : (c.map Prod.fst).Nodup) (hsub : ∀ k ∈ c.map Prod.fst, k ∈ A)
    (ha : arn ∈ A) (hcard : A.card ≤ lruMaxsize) :
    ((describe_permission_set env c arn).2.1.map Prod.fst).Nodup ∧
    (∀ k ∈ (describe_permission_set env c arn).2.1.map Prod.fst, k ∈ A) ∧
    (describe_permission_set env c arn).2.2.Nodup ∧
    (∀ k ∈ (describe_permission_set env c arn).2.2, k ∉ c.map Prod.fst) ∧
    (∀ k, k ∈ (describe_permission_set env c arn).2.1.map Prod.fst ↔
      k ∈ c.map Prod.fst ∨ k ∈ (describe_permission_set env c arn).2.2) := by
  cases hd : dget c arn with
  | some v =>
    have hc' : (describe_permission_set env c arn).2.1 =
        (arn, v) :: c.filter (fun p => !(p.1 == arn)) := by
      simp [describe_permission_set, hd]
    have hcalls : (describe_permission_set env c arn).2.2 = [] := by
      simp [describe_permission_set, hd]
    rw [hc', hcalls]
    have hmem : arn ∈ c.map Prod.fst := mem_of_dget_some hd
    rw [List.map_cons, map_fst_filter_key]
    refine ⟨?_, ?_, List.nodup_nil, ?_, ?_⟩
    · refine List.nodup_cons.mpr ⟨?_, hnd.filter _⟩
      intro hmm
      have := List.of_mem_filter hmm
      simp at this
    · intro k hk
      rcases List.mem_cons.mp hk with rfl | hk2
      · exact ha
      · exact hsub k (List.mem_of_mem_filter hk2)
    · intro k hk
      cases hk
    · intro k
      constructor
      · intro hk
        rcases List.mem_cons.mp hk with rfl | hk2
        · exact Or.inl hmem
        · exact Or.inl (List.mem_of_mem_filter hk2)
      · rintro (hk | hk)
        · by_cases he : k = arn
          · subst he
            exact List.mem_cons_self _ _
          · refine List.mem_cons_of_mem _ (List.mem_filter.mpr ⟨hk, ?_⟩)
            simp [he]
        · cases hk
  | none =>
    have hnm : arn ∉ c.map Prod.fst := not_mem_of_dget_none hd
    have hlen : c.length + 1 ≤ lruMaxsize := by
      have h1 : (arn :: c.map Prod.fst).Nodup := List.nodup_cons.mpr ⟨hnm, hnd⟩
      have h2 : (arn :: c.map Prod.fst).toFinset ⊆ A := by
        intro k hk
        rcases List.mem_cons.mp (List.mem_toFinset.mp hk) with rfl | hk2
        · exact ha
        · exact hsub k hk2
      have h3 := Finset.card_le_card h2
      rw [List.toFinset_card_of_nodup h1] at h3
      have h4 : (arn :: c.map Prod.fst).length = c.length + 1 := by simp
      rw [h4] at h3
      exact le_trans h3 hcard
    have htake : ((arn, env.permDescribe arn) :: c).take lruMaxsize =
        (arn, env.permDescribe arn) :: c :=
      List.take_of_length_le (by simpa using hlen)
    have hc' : (describe_permission_set env c arn).2.1 =
        (arn, env.permDescribe arn) :: c := by
      simp [describe_permission_set, hd, htake]
    have hcalls : (describe_permission_set env c arn).2.2 = [arn] := by
      simp [describe_permission_set, hd]
    rw [hc', hcalls, List.map_cons]
    refine ⟨List.nodup_cons.mpr ⟨hnm, hnd⟩, ?_, List.nodup_singleton arn, ?_, ?_⟩
    · intro k hk
      rcases List.mem_cons.mp hk with rfl | hk2
      · exact ha
      · exact hsub k hk2
    · intro k hk
      rcases List.mem_singleton.mp hk with rfl
      exact hnm
    · intro k
      constructor
      · intro hk
        rcases List.mem_cons.mp hk with rfl | hk2
        · exact Or.inr (List.mem_singleton_self _)
        · exact Or.inl hk2
      · rintro (hk | hk)
        · exact List.mem_cons_of_mem _ hk
        · rcases List.mem_singleton.mp hk with rfl
          exact List.mem_cons_self _ _

theorem runPermSets_calls (env : Env)
    (um : List (String × (String × String))) (gm : List (String × GroupEntry))
    (accountId accountName : String) (A : Finset String)
    (hcard : A.card ≤ lruMaxsize) :
    ∀ (ps : List String) (cache : List (String × PermInfo))
      (rows : List (List (String × String))) (calls : List String)
      (cache2 : List (String × PermInfo)) (err : Option PyErr),
    runPermSets env um gm accountId accountName ps cache =
      (rows, calls, cache2, err) →
    (∀ k ∈ ps, k ∈ A) →
    (cache.map Prod.fst).Nodup → (∀ k ∈ cache.map Prod.fst, k ∈ A) →
    ((cache2.map Prod.fst).Nodup ∧ (∀ k ∈ cache2.map Prod.fst, k ∈ A) ∧
     calls.Nodup ∧ (∀ k ∈ calls, k ∉ cache.map Prod.fst) ∧
     (∀ k, k ∈ cache2.map Prod.fst ↔ k ∈ cache.map Prod.fst ∨ k ∈ calls))
  | [], cache, rows, calls, cache2, err => by
    intro heq hps hnd hsub
    simp only [runPermSets, Prod.mk.injEq] at heq
    obtain ⟨rfl, rfl, rfl, rfl⟩ := heq
    refine ⟨hnd, hsub, List.nodup_nil, ?_, ?_⟩
    · intro k hk
      cases hk
    · intro k
      simp
  | parn :: rest, cache, rows, calls, cache2, err => by
    intro heq hps hnd hsub
    have hd := describe_keys env A cache parn hnd hsub
      (hps parn (List.mem_cons_self _ _)) hcard
    simp only [runPermSets] at heq
    rcases hA : runAssignmentsList um gm accountId accountName parn
        (describe_permission_set env cache parn).1.name
        ((describe_permission_set env cache parn).1.desc.getD "")
        (env.assignments accountId parn) with ⟨rowsA, errA⟩
    rw [hA] at heq
    cases errA with
    | some e =>
      simp only [Prod.mk.injEq] at heq
      obtain ⟨rfl, rfl, rfl, rfl⟩ := heq
      exact hd
    | none =>
      rcases hrec : runPermSets env um gm accountId accountName rest
          (describe_permission_set env cache parn).2.1 with
        ⟨rows2, calls2, cache2b, err2⟩
      simp only [hrec, Prod.mk.injEq] at heq
      obtain ⟨rfl, rfl, rfl, rfl⟩ := heq
      have ih := runPermSets_calls env um gm accountId accountName A hcard rest
        (describe_permission_set env cache parn).2.1 rows2 calls2 cache2b err2
        hrec (fun k hk => hps k (List.mem_cons_of_mem _ hk)) hd.1 hd.2.1
      refine ⟨ih.1, ih.2.1, ?_, ?_, ?_⟩
      · refine List.Nodup.append hd.2.2.1 ih.2.2.1 ?_
        intro k hk1 hk2
        exact ih.2.2.2.1 k hk2 ((hd.2.2.2.2 k).mpr (Or.inr hk1))
      · intro k hk
        rcases List.mem_append.mp hk with h | h
        · exact hd.2.2.2.1 k h
        · intro hmem
          exact ih.2.2.2.1 k h ((hd.2.2.2.2 k).mpr (Or.inl hmem))
      · intro k
        rw [ih.2.2.2.2 k, hd.2.2.2.2 k, List.mem_append]
        tauto

theorem runAccounts_calls (env : Env)
    (um : List (String × (String × String))) (gm : List (String × GroupEntry))
    (A : Finset String) (hcard : A.card ≤ lruMaxsize) :
    ∀ (accounts : List (String × String)) (cache : List (String × PermInfo))
      (rows : List (List (String × String))) (calls : List String)
      (cache2 : List (String × PermInfo)) (err : Option PyErr),
    runAccounts env um gm accounts cache = (rows, calls, cache2, err) →
    (∀ p ∈ accounts, ∀ k ∈ env.permSets p.1, k ∈ A) →
    (cache.map Prod.fst).Nodup → (∀ k ∈ cache.map Prod.fst, k ∈ A) →
    ((cache2.map Prod.fst).Nodup ∧ (∀ k ∈ cache2.map Prod.fst, k ∈ A) ∧
     calls.Nodup ∧ (∀ k ∈ calls, k ∉ cache.map Prod.fst) ∧
     (∀ k, k ∈ cache2.map Prod.fst ↔ k ∈ cache.map Prod.fst ∨ k ∈ calls))
  | [], cache, rows, calls, cache2, err => by
    intro heq hps hnd hsub
    simp only [runAccounts, Prod.mk.injEq] at heq
    obtain ⟨rfl, rfl, rfl, rfl⟩ := heq
    refine ⟨hnd, hsub, List.nodup_nil, ?_, ?_⟩
    · intro k hk
      cases hk
    · intro k
      simp
  | (accountId, accountName) :: rest, cache, rows, calls, cache2, err => by
    intro heq hps hnd hsub
    simp only [runAccounts] at heq
    rcases hP : runPermSets env um gm accountId accountName
        (env.permSets accountId) cache with ⟨rowsP, callsP, cacheP, errP⟩
    rw [hP] at heq
    have hp := runPermSets_calls env um gm accountId accountName A hcard
      (env.permSets accountId) cache rowsP callsP cacheP errP hP
      (hps (accountId, accountName) (List.mem_cons_self _ _)) hnd hsub
    cases errP with
    | some e =>
      simp only [Prod.mk.injEq] at heq
      obtain ⟨rfl, rfl, rfl, rfl⟩ := heq
      exact hp
    | none =>
      rcases hrec : runAccounts env um gm rest cacheP with
        ⟨rows2, calls2, cache2b, err2⟩
      simp only [hrec, Prod.mk.injEq] at heq
      obtain ⟨rfl, rfl, rfl, rfl⟩ := heq
      have ih := runAccounts_calls env um gm A hcard rest cacheP rows2 calls2
        cache2b err2 hrec (fun p hpm => hps p (List.mem_cons_of_mem _ hpm))
        hp.1 hp.2.1
      refine ⟨ih.1, ih.2.1, ?_, ?_, ?_⟩
      · refine List.Nodup.append hp.2.2.1 ih.2.2.1 ?_
        intro k hk1 hk2
        exact ih.2.2.2.1 k hk2 ((hp.2.2.2.2 k).mpr (Or.inr hk1))
      · intro k hk
        rcases List.mem_append.mp hk with h | h
        · exact hp.2.2.2.1 k h
        · intro hmem
          exact ih.2.2.2.1 k h ((hp.2.2.2.2 k).mpr (Or.inl hmem))
      · intro k
        rw [ih.2.2.2.2 k, hp.2.2.2.2 k, List.mem_append]
        tauto

/-- C3 (amended): when a run encounters at most 128 distinct permission-set
ARNs (the default capacity of the bare `functools.lru_cache` decorator), the
describe API call is issued at most once per unique ARN: after the first
describe of an ARN, every later lookup of the same ARN is served from the
cache, which does not evict within that bound. -/
theorem C3_describe_memoized (env : Env)
    (hcard : (allArns env).toFinset.card ≤ lruMaxsize) :
    ∀ arn, (runMain env).calls.count arn ≤ 1 := by
  intro arn
  cases hbg : buildGroupMap (buildUserMap env.users) env.memberships
      env.groups [] with
  | error e =>
    have hmain : runMain env = ⟨false, [], [], some e⟩ := by
      simp only [runMain, hbg]
    rw [hmain]
    simp
  | ok gm =>
    rcases hra : runAccounts env (buildUserMap env.users) gm env.accounts []
      with ⟨rows, calls, cache, err⟩
    have hmain : runMain env = ⟨true, rows, calls, err⟩ := by
      simp only [runMain, hbg, hra]
    rw [hmain]
    have hacc : ∀ p ∈ env.accounts, ∀ k ∈ env.permSets p.1,
        k ∈ (allArns env).toFinset := by
      intro p hp k hk
      refine List.mem_toFinset.mpr (List.mem_flatten.mpr
        ⟨env.permSets p.1, ?_, hk⟩)
      exact List.mem_map.mpr ⟨p, hp, rfl⟩
    have h := runAccounts_calls env (buildUserMap env.users) gm
      (allArns env).toFinset hcard env.accounts [] rows calls cache err hra
      hacc (by simp) (by simp)
    exact List.nodup_iff_count_le_one.mp h.2.2.1 arn

theorem C3_describe_memoized_witness :
    (runMain envW).calls.count "ps-1" ≤ 1 :=
  C3_describe_memoized envW (by decide) "ps-1"

/-- C3 counterexample: a run that encounters 129 distinct permission-set ARNs
overflows the default lru_cache capacity of 128; the first ARN is evicted and
its describe call is issued twice, refuting "at most once per unique ARN"
and "never evicts". -/
theorem C3_describe_twice : (runMain envC3).calls.count "ps0" = 2 := by
  decide

end SsoReport
